import Mathlib

/-!
Verification development for the case-connect intake agent repository.

The repository bridges live audio between a browser client and a remote
conversational speech agent.  The shallow embedding below translates the
relevant source functions:

* `src/index.js`, `handleBrowserDemoWS` — the primary bridge session
  (handshake, pre-roll buffer, mic framing, transcript translation);
* `src/web-demo-live.js`, `setupWebDemoLive` — the alternate bridge session
  mounted by the other bootstrap variants;
* `src/web/public/worklets/pcm-processor.js` — capture-path resampler and
  frame packer;
* `src/web/public/worklets/pcm-player.js` — playback unpacker.

Byte buffers are lists of naturals, audio samples are rationals, and the
event callbacks become pure step functions from session state and event to
new state plus the list of transport sends they perform.
-/

namespace CaseConnect

/-- A byte of a binary WebSocket message. -/
abbrev Byte := ℕ

/-- An audio frame: a byte buffer sliced out of the mic stream. -/
abbrev Frame := List Byte

/-- `MAX_PRE_FRAMES = 200` from `src/index.js` line 150 (about 4 s of 20 ms
frames). -/
def MAX_PRE_FRAMES : ℕ := 200

/-- `BYTES_PER_FRAME = Math.round(16000 * 2 * (20 / 1000)) = 640` from
`src/index.js` lines 222-223. -/
def BYTES_PER_FRAME : ℕ := 640

/-- Pre-roll enqueue, `src/index.js` lines 239-240 and
`src/web-demo-live.js` lines 163-164: `push` the frame, then if the length
exceeds the capacity, `shift()` the oldest entry off the front. -/
def preEnqueue (cap : ℕ) (buf : List Frame) (fr : Frame) : List Frame :=
  let b := buf ++ [fr]
  if cap < b.length then b.tail else b

/-- A JSON control event from the agent, as the fields the handlers read.
`none` models an absent property.  The JS property `partial` is named
`partFlag` here; `transcript` and `is_final` keep their JS names. -/
structure AgentEvt where
  type : String
  role : Option String := none
  speaker : Option String := none
  actor : Option String := none
  content : Option String := none
  text : Option String := none
  transcript : Option String := none
  message : Option String := none
  description : Option String := none
  final : Option Bool := none
  is_final : Option Bool := none
  status : Option String := none
  partFlag : Option Bool := none
  deriving DecidableEq

/-- JS `a || b || ... || ''` over string-valued properties: the first
present, non-empty string, else the empty string. -/
def firstTruthy : List (Option String) → String
  | [] => ""
  | none :: rest => firstTruthy rest
  | some t :: rest => if t = "" then firstTruthy rest else t

/-- JS `a ?? b ?? ... ?? ''` over string-valued properties: the first
present string (empty counts as present), else the empty string. -/
def firstSome : List (Option String) → String
  | [] => ""
  | none :: rest => firstSome rest
  | some t :: _ => t

/-- JS `o || d` for an optional string: `d` when absent or empty. -/
def jsOr (o : Option String) (d : String) : String :=
  match o with
  | none => d
  | some t => if t = "" then d else t

/-- JS `String.prototype.toLowerCase` (over the character list, so that it
reduces definitionally). -/
def jsToLower (s : String) : String := ⟨s.data.map Char.toLower⟩

/-- JS `String.prototype.trim`: strip whitespace from both ends. -/
def jsTrim (s : String) : String :=
  ⟨((s.data.dropWhile Char.isWhitespace).reverse.dropWhile Char.isWhitespace).reverse⟩

/-- Does the second list open the first? -/
def startsWithL : List Char → List Char → Bool
  | _, [] => true
  | [], _ :: _ => false
  | a :: as, b :: bs => a == b && startsWithL as bs

/-- Substring occurrence over character lists. -/
def containsAux : List Char → List Char → Bool
  | [], pat => pat.isEmpty
  | c :: rest, pat => startsWithL (c :: rest) pat || containsAux rest pat

/-- JS `String.prototype.includes`. -/
def strContains (s pat : String) : Bool := containsAux s.data pat.data

/-- A transport send performed by a bridge session. -/
inductive Action where
  | agentSettings
  | agentFrame (fr : Frame)
  | agentKeepAlive
  | clientStatus (text : String)
  | clientSettingsInfo
  | clientText (s : String)
  | clientBinary (data : List Byte)
  | clientClose (code : ℕ)
  | clientTerminate
  | agentClose (code : ℕ)
  deriving DecidableEq

/-- A JSON string literal (the payload strings carry no escapes). -/
def jsonQ (s : String) : String := "\"" ++ s ++ "\""

/-- `JSON.stringify` of the transcript payload object
`\x7b type, role, text, partial \x7d` in the key order both handlers build
it (`src/index.js` lines 187-192, `src/web-demo-live.js` lines 133-137). -/
def transcriptWire (role text : String) (pf : Bool) : String :=
  "\x7b\"type\":\"transcript\",\"role\":" ++ jsonQ role ++ ",\"text\":" ++ jsonQ text
    ++ ",\"partial\":" ++ (if pf then "true" else "false") ++ "\x7d"

/-- Per-session state of `handleBrowserDemoWS` (`src/index.js`): the
`closed` flag, the agent socket being in the OPEN ready state, the two
handshake flags, the pre-roll buffer and the mic carry buffer. -/
structure SessionState where
  closed : Bool := false
  agentOpen : Bool := false
  settingsSent : Bool := false
  settingsApplied : Bool := false
  preFrames : List Frame := []
  micBuf : List Byte := []
  deriving DecidableEq

/-- State at session creation (`src/index.js` lines 47, 91-92, 149, 224). -/
def initSession : SessionState := {}

/-- `sendSettings` (`src/index.js` lines 112-140).  When the settings were
already sent it returns at once.  `agentWS.send` throws when the socket is
not open, in which case the catch branch reports a status to the client and
`settingsSent` stays false; on success the flag is set and the client gets
the settings summary. -/
def sendSettings (s : SessionState) : SessionState × List Action :=
  if s.settingsSent then (s, [])
  else if s.agentOpen then
    ({ s with settingsSent := true }, [Action.agentSettings, Action.clientSettingsInfo])
  else
    (s, [Action.clientStatus "Failed to send Settings to Deepgram."])

/-- The event types of the transcript cases in the `switch` of
`src/index.js` lines 175-185. -/
def transcriptTypes : List String :=
  ["ConversationText", "History", "UserTranscript", "UserResponse", "Transcript",
   "AddUserMessage", "AddAssistantMessage", "AgentTranscript", "AgentResponse",
   "PartialTranscript", "AddPartialTranscript"]

/-- `src/index.js` line 160: `String(evt.role || evt.speaker || evt.actor
|| '').toLowerCase()`. -/
def evtRole (e : AgentEvt) : String := jsToLower (firstTruthy [e.role, e.speaker, e.actor])

/-- `src/index.js` line 161: `String(evt.content ?? evt.text ??
evt.transcript ?? evt.message ?? '').trim()`. -/
def evtText (e : AgentEvt) : String := jsTrim (firstSome [e.content, e.text, e.transcript, e.message])

/-- `src/index.js` line 162: the finality heuristic. -/
def evtIsFinal (e : AgentEvt) : Bool :=
  e.final == some true || e.is_final == some true || e.status == some "final"
    || e.type == "UserResponse"

/-- The `switch (evt.type)` on a parsed agent JSON event,
`src/index.js` lines 164-203.  Audio frames buffered before the settings
acknowledgement are flushed on `SettingsApplied`; the sends succeed while
the agent socket is open (the loop sits in a `try` whose catch discards the
error), and the buffer is cleared afterwards either way. -/
def agentEvtStep (s : SessionState) (e : AgentEvt) : SessionState × List Action :=
  if e.type == "Welcome" then
    sendSettings s
  else if e.type == "SettingsApplied" then
    let s1 := { s with settingsApplied := true }
    if s.preFrames ≠ [] then
      ({ s1 with preFrames := [] },
        if s.agentOpen then s.preFrames.map Action.agentFrame else [])
    else (s1, [])
  else if transcriptTypes.contains e.type then
    if evtText e == "" then (s, [])
    else
      (s, [Action.clientText (transcriptWire
        (if strContains (evtRole e) "agent" || strContains (evtRole e) "assistant"
          then "Agent" else "User")
        (evtText e) (!(evtIsFinal e)))])
  else if e.type == "AgentWarning" then
    (s, [Action.clientStatus ("Agent warning: " ++ jsOr e.message "unknown")])
  else if e.type == "AgentError" || e.type == "Error" then
    (s, [Action.clientStatus ("Agent error: " ++ jsOr e.description (jsOr e.message "unknown"))])
  else (s, [])

/-- A binary agent message is forwarded verbatim to the client,
`src/index.js` lines 207-209. -/
def agentBinaryStep (s : SessionState) (data : List Byte) : SessionState × List Action :=
  (s, [Action.clientBinary data])

/-- The `while (micBuf.length >= BYTES_PER_FRAME)` loop of
`src/index.js` lines 235-244: slice successive 640-byte frames off the
carry buffer; before the handshake completes they go to the pre-roll
buffer, afterwards straight to the agent. -/
def drainMic (ss sa : Bool) (pre : List Frame) (buf : List Byte) :
    List Frame × List Byte × List Action :=
  if h : BYTES_PER_FRAME ≤ buf.length then
    let fr := buf.take BYTES_PER_FRAME
    let rest := buf.drop BYTES_PER_FRAME
    if !ss || !sa then
      drainMic ss sa (preEnqueue MAX_PRE_FRAMES pre fr) rest
    else
      let r := drainMic ss sa pre rest
      (r.1, r.2.1, Action.agentFrame fr :: r.2.2)
  else (pre, buf, [])
termination_by buf.length
decreasing_by
  all_goals
    simp only [List.length_drop, BYTES_PER_FRAME] at *
    omega

/-- `browserWS.on('message')` for a binary mic message,
`src/index.js` lines 226-245: dropped whole unless the agent socket is
OPEN; otherwise appended to the carry buffer, which is then drained. -/
def browserMsgStep (s : SessionState) (data : List Byte) : SessionState × List Action :=
  if !s.agentOpen then (s, [])
  else
    let buf := s.micBuf ++ data
    let r := drainMic s.settingsSent s.settingsApplied s.preFrames buf
    ({ s with preFrames := r.1, micBuf := r.2.1 }, r.2.2)

/-- `safeClose` (`src/index.js` lines 250-256): idempotent via the `closed`
flag; closes the agent socket with code 1000 and terminates the client. -/
def safeClose (s : SessionState) : SessionState × List Action :=
  if s.closed then (s, [])
  else
    ({ s with closed := true, agentOpen := false },
      [Action.agentClose 1000, Action.clientTerminate])

/-- `agentWS.on('open')` (`src/index.js` lines 142-146): marks the socket
open, reports status to the client, and sends the settings. -/
def agentOpenStep (s : SessionState) : SessionState × List Action :=
  let s0 := { s with agentOpen := true }
  let r := sendSettings s0
  (r.1, Action.clientStatus "Connected to Deepgram." :: r.2)

/-- `agentWS.on('close')` (`src/index.js` lines 212-216): the socket is no
longer open; report status and close down. -/
def agentCloseStep (s : SessionState) : SessionState × List Action :=
  let s0 := { s with agentOpen := false }
  let r := safeClose s0
  (r.1, Action.clientStatus "Deepgram connection closed." :: r.2)

/-- A message delivered on the agent socket: a parsed JSON control event or
an opaque binary audio payload (the first-byte disambiguation of
`src/index.js` line 156 selects which). -/
inductive AgentIn where
  | evt (e : AgentEvt)
  | audio (data : List Byte)
  deriving DecidableEq

/-- The callback events a bridge session can observe, in any order. -/
inductive Ev where
  | agentOpenEv
  | agentMsg (m : AgentIn)
  | browserAudio (data : List Byte)
  | browserText
  | browserClose
  | agentCloseEv
  deriving DecidableEq

/-- Dispatch one callback event (`src/index.js` lines 142-248).  A text
message from the browser returns at once (line 227-229). -/
def step (s : SessionState) (e : Ev) : SessionState × List Action :=
  match e with
  | Ev.agentOpenEv => agentOpenStep s
  | Ev.agentMsg (AgentIn.evt ev) => agentEvtStep s ev
  | Ev.agentMsg (AgentIn.audio d) => agentBinaryStep s d
  | Ev.browserAudio d => browserMsgStep s d
  | Ev.browserText => (s, [])
  | Ev.browserClose => safeClose s
  | Ev.agentCloseEv => agentCloseStep s

/-- Run a session from a given state over a list of callback events,
collecting every transport send in order. -/
def runFrom (s : SessionState) : List Ev → SessionState × List Action
  | [] => (s, [])
  | e :: es =>
    let r := step s e
    let r2 := runFrom r.1 es
    (r2.1, r.2 ++ r2.2)

/-- Run a session from its initial state. -/
def run (es : List Ev) : SessionState × List Action := runFrom initSession es

/-- The audio frames among a list of sends directed at the agent socket. -/
def agentFrames (acts : List Action) : List Frame :=
  acts.filterMap fun a =>
    match a with
    | Action.agentFrame fr => some fr
    | _ => none

/-- How many times the settings payload was sent to the agent. -/
def settingsSends (acts : List Action) : ℕ :=
  (acts.filter fun a =>
    match a with
    | Action.agentSettings => true
    | _ => false).length

/-- Whether an event is the agent reporting `SettingsApplied`. -/
def isSettingsAppliedEv : Ev → Bool
  | Ev.agentMsg (AgentIn.evt e) => e.type == "SettingsApplied"
  | _ => false

/-- Whether an event is a message delivered on the agent socket. -/
def isAgentMsg : Ev → Bool
  | Ev.agentMsg _ => true
  | _ => false

/-- Whether an event triggers `sendSettings`: the transport-level open or a
`Welcome` control event (`src/index.js` lines 142-146 and 164-167). -/
def isTrigger : Ev → Bool
  | Ev.agentOpenEv => true
  | Ev.agentMsg (AgentIn.evt e) => e.type == "Welcome"
  | _ => false

/-- Transport sanity for a trace: a message on the agent socket is only
delivered while that socket is open. -/
def WFFrom : SessionState → List Ev → Prop
  | _, [] => True
  | s, e :: es => (isAgentMsg e = true → s.agentOpen = true) ∧ WFFrom (step s e).1 es

/-- Transport sanity from the initial state. -/
def WF (es : List Ev) : Prop := WFFrom initSession es

/-! ## Session start (`src/index.js` lines 46-94)

When the required credential is absent the handler sends a status message,
closes the client connection with code 1011 and returns before the agent
socket is even constructed.  Otherwise the outbound agent connection is
created and the client gets the connected status. -/

/-- JS falsiness of an optional string (absent or empty). -/
def jsFalsyStr (o : Option String) : Bool :=
  match o with
  | none => true
  | some s => s == ""

/-- Result of accepting a client connection. -/
structure StartResult where
  agentConnectionOpened : Bool
  actions : List Action
  session : Option SessionState
  deriving DecidableEq

/-- `handleBrowserDemoWS` up to the credential check, `src/index.js`
lines 62-94: `if (!dgKey)` refuses the session before `new WebSocket(...)`
is reached. -/
def startSession (dgKey : Option String) : StartResult :=
  if jsFalsyStr dgKey then
    { agentConnectionOpened := false
      actions := [Action.clientStatus "Missing DEEPGRAM_API_KEY", Action.clientClose 1011]
      session := none }
  else
    { agentConnectionOpened := true
      actions := [Action.clientStatus "demo-ws-connected"]
      session := some initSession }

/-! ## Voice selection

`src/index.js` lines 49-60 and `src/web-demo-live.js` lines 28-32 and
53-56. -/

/-- The longest digit run opening a character list. -/
def takeDigits (cs : List Char) : List Char := cs.takeWhile Char.isDigit

/-- Decimal value of a digit run. -/
def digitsToNat (cs : List Char) : ℕ :=
  cs.foldl (fun a c => 10 * a + (c.toNat - ('0').toNat)) 0

/-- JS `parseInt(s, 10)`: skip whitespace, optional sign, then the leading
digit run; `none` models `NaN`. -/
def jsParseInt (s : String) : Option ℤ :=
  let cs := s.data.dropWhile Char.isWhitespace
  match cs with
  | '-' :: rest =>
    let ds := takeDigits rest
    if ds = [] then none else some (-(digitsToNat ds : ℤ))
  | '+' :: rest =>
    let ds := takeDigits rest
    if ds = [] then none else some (digitsToNat ds : ℤ)
  | _ =>
    let ds := takeDigits cs
    if ds = [] then none else some (digitsToNat ds : ℤ)

/-- `src/index.js` lines 50-55: `voiceId` starts at 1, `parseInt` of the
query value (or the string "1" when it is missing or empty), and only a
result in `[1, 2, 3]` replaces the default. -/
def voiceIdIndex (qp : Option String) : ℤ :=
  let s := jsOr qp "1"
  match jsParseInt s with
  | some v => if v = 1 ∨ v = 2 ∨ v = 3 then v else 1
  | none => 1

/-- `src/index.js` lines 57-60: the voice name for the selected identifier,
`process.env[VOICE_id_TTS] || process.env.DG_TTS_VOICE ||
'aura-2-odysseus-en'`. -/
def indexTtsVoice (envVoice : ℤ → Option String) (dgTts : Option String) (vid : ℤ) : String :=
  jsOr (envVoice vid) (jsOr dgTts "aura-2-odysseus-en")

/-- `src/web-demo-live.js` lines 54-55: the raw query value, defaulting to
the string "2" when missing or empty. -/
def wdlVoiceId (qp : Option String) : String := jsOr qp "2"

/-- The `VOICE_MAP` lookup of `src/web-demo-live.js` lines 28-32: keys "1",
"2", "3" bound to `process.env.VOICE_n_TTS || DEFAULT_TTS`. -/
def wdlVoiceMapLookup (v1 v2 v3 : String) (key : String) : Option String :=
  if key = "1" then some v1
  else if key = "2" then some v2
  else if key = "3" then some v3
  else none

/-- `src/web-demo-live.js` line 56:
`(VOICE_MAP[voiceId] || DEFAULT_TTS).trim()`. -/
def wdlTtsVoice (e1 e2 e3 : Option String) (dflt : String) (qp : Option String) : String :=
  let key := wdlVoiceId qp
  (match wdlVoiceMapLookup (jsOr e1 dflt) (jsOr e2 dflt) (jsOr e3 dflt) key with
    | some v => if v = "" then dflt else v
    | none => dflt) |> jsTrim

/-! ## The alternate bridge of `src/web-demo-live.js`

Per-connection state of `setupWebDemoLive` (lines 61-63): the two
handshake flags and the pre-roll buffer (capacity 24 there). -/

/-- Per-connection state of the `web-demo-live` bridge. -/
structure WdlState where
  settingsSent : Bool := false
  settingsApplied : Bool := false
  preRoll : List (List Byte) := []
  deriving DecidableEq

/-- Initial `web-demo-live` state. -/
def initWdl : WdlState := {}

/-- The event types of the transcript case in `src/web-demo-live.js`
lines 119-123. -/
def wdlTranscriptTypes : List String :=
  ["Transcript", "ConversationText", "History", "UserTranscript", "UserResponse"]

/-- The `switch (evt.type)` of `src/web-demo-live.js` lines 101-148.
`agentOpen` is the ready state of the agent socket at flush time. -/
def wdlEvtStep (agentOpen : Bool) (s : WdlState) (e : AgentEvt) : WdlState × List Action :=
  if e.type == "SettingsApplied" then
    let s1 := { s with settingsApplied := true }
    if s.preRoll ≠ [] then
      ({ s1 with preRoll := [] },
        Action.clientSettingsInfo ::
          (if agentOpen then s.preRoll.map Action.agentFrame else []))
    else (s1, [Action.clientSettingsInfo])
  else if wdlTranscriptTypes.contains e.type then
    let role := jsToLower (firstTruthy [e.role, e.speaker])
    let text := firstTruthy [e.content, e.text, e.transcript]
    let pf := e.partFlag == some true
    if jsTrim text ≠ "" then
      (s, [Action.clientText (transcriptWire
        (if role == "user" then "User" else "Agent") text pf)])
    else (s, [])
  else (s, [])

/-- `client.on('message')` of `src/web-demo-live.js` lines 157-166: a mic
message is dropped unless the agent socket is OPEN; forwarded once the
handshake completed; buffered (capacity 24, drop-oldest) after the settings
were sent but before the acknowledgement; otherwise dropped. -/
def wdlClientMsg (agentOpen : Bool) (s : WdlState) (data : List Byte) : WdlState × List Action :=
  if !agentOpen then (s, [])
  else if s.settingsSent && s.settingsApplied then (s, [Action.agentFrame data])
  else if s.settingsSent then ({ s with preRoll := preEnqueue 24 s.preRoll data }, [])
  else (s, [])

/-! ## Resampler (`src/web/public/worklets/pcm-processor.js` lines 6-39)

Samples are rationals.  The persistent state is the accumulated input
history `inBuf` and the fractional read cursor `pos`.  The `while` loop of
`_resampleBlock` is written with a fuel argument; with a ratio of at least
one, fuel equal to the buffer length always reaches the loop condition
(`resampleLoop_stops` below), so the translation computes the same output
as the unbounded JS loop. -/

/-- Resampler state: `this.inBuf` and `this.pos`. -/
structure RState where
  inBuf : List ℚ
  pos : ℚ
  deriving DecidableEq

/-- Constructor state (`pcm-processor.js` lines 12-13). -/
def initR : RState := ⟨[], 0⟩

/-- One linear interpolation read (`pcm-processor.js` lines 24-28):
`i = Math.floor(pos)`, `frac = pos - i`, `s0 + (s1 - s0) * frac`. -/
def interpAt (buf : List ℚ) (p : ℚ) : ℚ :=
  let i := (⌊p⌋).toNat
  let frac := p - ⌊p⌋
  let s0 := buf.getD i 0
  let s1 := buf.getD (i + 1) 0
  s0 + (s1 - s0) * frac

/-- The `while (this.pos + 1 < this.inBuf.length)` loop
(`pcm-processor.js` lines 22-30), advancing the cursor by the ratio per
output sample. -/
def resampleLoop (r : ℚ) : ℕ → List ℚ → ℚ → List ℚ × ℚ
  | 0, _, p => ([], p)
  | fuel + 1, buf, p =>
    if p + 1 < (buf.length : ℚ) then
      let o := interpAt buf p
      let rest := resampleLoop r fuel buf (p + r)
      (o :: rest.1, rest.2)
    else ([], p)

/-- `_resampleBlock` (`pcm-processor.js` lines 17-39): append the input,
run the loop, then drop the consumed integer part of the cursor from the
history and keep the fractional remainder. -/
def resampleBlock (r : ℚ) (st : RState) (input : List ℚ) : List ℚ × RState :=
  let buf := st.inBuf ++ input
  let res := resampleLoop r buf.length buf st.pos
  let consumed : ℤ := ⌊res.2⌋
  if 0 < consumed then (res.1, ⟨buf.drop consumed.toNat, res.2 - consumed⟩)
  else (res.1, ⟨buf, res.2⟩)

/-- `this.ratio = this.inRate / this.outRate` with `outRate = 16000`
(`pcm-processor.js` lines 9-11). -/
def rRatio (inRate : ℚ) : ℚ := inRate / 16000

/-- Feed a sequence of capture blocks through the resampler. -/
def resampleRun (r : ℚ) : RState → List (List ℚ) → RState
  | st, [] => st
  | st, b :: bs => resampleRun r (resampleBlock r st b).2 bs

/-! ## Frame packer (`pcm-processor.js` lines 41-56) -/

/-- `FRAME_SAMPLES = 320`: one 20 ms frame at 16 kHz. -/
def FRAME_SAMPLES : ℕ := 320

/-- The clamp of `_flushFrames` lines 48-50. -/
def clampUnit (v : ℚ) : ℚ := if 1 < v then 1 else if v < -1 then -1 else v

/-- JS `| 0`: truncation toward zero (the quantized values all fit in a
32-bit integer, see `frame_packer_exact`). -/
def truncQ (q : ℚ) : ℤ := if q < 0 then -⌊-q⌋ else ⌊q⌋

/-- Line 51: `(v < 0 ? v * 0x8000 : v * 0x7fff) | 0` after clamping. -/
def quantize16 (v0 : ℚ) : ℤ :=
  let v := clampUnit v0
  truncQ (if v < 0 then v * 32768 else v * 32767)

/-- The `while (this.outFloat.length >= FRAME_SAMPLES)` loop of
`_flushFrames` lines 44-55: splice off exactly 320 samples, quantize them,
emit the frame, and keep the remainder queued. -/
def flushFrames (q : List ℚ) : List (List ℤ) × List ℚ :=
  if h : FRAME_SAMPLES ≤ q.length then
    let frame := q.take FRAME_SAMPLES
    let res := flushFrames (q.drop FRAME_SAMPLES)
    ((frame.map quantize16) :: res.1, res.2)
  else ([], q)
termination_by q.length
decreasing_by
  all_goals
    simp only [List.length_drop, FRAME_SAMPLES] at *
    omega

/-! ## Playback unpacker (`src/web/public/worklets/pcm-player.js`) -/

/-- Player state: the FIFO of float chunks and the read index into the
head chunk. -/
structure PlayerState where
  queue : List (List ℚ)
  readIndex : ℕ
  deriving DecidableEq

/-- Constructor state (`pcm-player.js` lines 6-7). -/
def initPlayer : PlayerState := ⟨[], 0⟩

/-- `port.onmessage` (`pcm-player.js` lines 8-14): only an `ArrayBuffer`
payload (`some`) with a non-zero length is enqueued. -/
def playerOnMessage (st : PlayerState) (data : Option (List ℚ)) : PlayerState :=
  match data with
  | some f32 => if f32.length ≠ 0 then { st with queue := st.queue ++ [f32] } else st
  | none => st

/-- The render loop of `process` (`pcm-player.js` lines 23-36), filling `n`
output slots: silence on underrun, otherwise the sample at the read index,
retiring the head chunk once exhausted. -/
def playerProcess : PlayerState → ℕ → List ℚ × PlayerState
  | st, 0 => ([], st)
  | st, n + 1 =>
    match st.queue with
    | [] =>
      let r := playerProcess st n
      (0 :: r.1, r.2)
    | chunk :: rest =>
      let v := chunk.getD st.readIndex 0
      let ri := st.readIndex + 1
      let st1 := if chunk.length ≤ ri then PlayerState.mk rest 0
                 else PlayerState.mk (chunk :: rest) ri
      let r := playerProcess st1 n
      (v :: r.1, r.2)

/-- An interaction with the player worklet. -/
inductive PlayerOp where
  | message (data : Option (List ℚ))
  | render (n : ℕ)

/-- Run the player over a sequence of port messages and render callbacks. -/
def playerRun : PlayerState → List PlayerOp → PlayerState
  | st, [] => st
  | st, PlayerOp.message d :: ops => playerRun (playerOnMessage st d) ops
  | st, PlayerOp.render n :: ops => playerRun (playerProcess st n).2 ops

/-- The player invariant: every queued chunk is non-empty, and the read
index is in bounds of the head chunk (zero on an empty queue). -/
def PlayerInv (st : PlayerState) : Prop :=
  (∀ c ∈ st.queue, c ≠ []) ∧
  (match st.queue with
    | [] => st.readIndex = 0
    | c :: _ => st.readIndex < c.length)

/-! ## Statement helpers

`chunks640` and `rem640` describe what the mic drain loop computes: the
successive complete 640-byte frames of a buffer and the carried
remainder. -/

/-- The complete 640-byte frames at the front of a buffer, in order. -/
def chunks640 (buf : List Byte) : List Frame :=
  if h : BYTES_PER_FRAME ≤ buf.length then
    buf.take BYTES_PER_FRAME :: chunks640 (buf.drop BYTES_PER_FRAME)
  else []
termination_by buf.length
decreasing_by
  all_goals
    simp only [List.length_drop, BYTES_PER_FRAME] at *
    omega

/-- The remainder of a buffer after all complete 640-byte frames. -/
def rem640 (buf : List Byte) : List Byte :=
  if h : BYTES_PER_FRAME ≤ buf.length then rem640 (buf.drop BYTES_PER_FRAME) else buf
termination_by buf.length
decreasing_by
  all_goals
    simp only [List.length_drop, BYTES_PER_FRAME] at *
    omega

/-- The transcript event of the end-to-end scenario: the agent reports a
final user utterance. -/
def c3evt : AgentEvt :=
  { type := "Transcript", role := some "user", text := some "hello", partFlag := some false }

/-- The client message the scenario expects for `c3evt`. -/
def c3Claimed : String :=
  "\x7b\"type\":\"transcript\",\"role\":\"User\",\"text\":\"hello\",\"partial\":false\x7d"

/-! # Theorems -/

/-- C6: with the credential absent (or empty, which JS treats the same),
`handleBrowserDemoWS` sends the client a status message, closes the client
connection with code 1011, and returns before the agent connection is
constructed. -/
theorem missing_credential_refuses_session (key : Option String)
    (h : jsFalsyStr key = true) :
    startSession key =
      { agentConnectionOpened := false
        actions := [Action.clientStatus "Missing DEEPGRAM_API_KEY", Action.clientClose 1011]
        session := none } := by
  simp [startSession, h]

/-- Witness for C6 at the concrete absent credential. -/
theorem missing_credential_refuses_session_witness :
    jsFalsyStr none = true ∧
    startSession none =
      { agentConnectionOpened := false
        actions := [Action.clientStatus "Missing DEEPGRAM_API_KEY", Action.clientClose 1011]
        session := none } :=
  ⟨rfl, missing_credential_refuses_session none rfl⟩

/-- C9: a binary mic message arriving while the agent socket is not OPEN is
discarded whole by both bridge variants: the state (pre-roll buffer and
carry buffer included) is unchanged and nothing is sent anywhere. -/
theorem audio_before_agent_open_discarded :
    (∀ (s : SessionState) (data : List Byte), s.agentOpen = false →
      browserMsgStep s data = (s, [])) ∧
    (∀ (s : WdlState) (data : List Byte), wdlClientMsg false s data = (s, [])) := by
  constructor
  · intro s data h
    simp [browserMsgStep, h]
  · intro s data
    simp [wdlClientMsg]

/-- Witness for C9 at a concrete closed-agent state. -/
theorem audio_before_agent_open_discarded_witness :
    browserMsgStep initSession [0, 1, 2] = (initSession, []) :=
  audio_before_agent_open_discarded.1 initSession [0, 1, 2] rfl

/-- C8 counterexample: with the `voiceId` query parameter missing, the
`handleBrowserDemoWS` parse in `src/index.js` lines 50-55 yields voice
identifier 1, not the claimed default 2. -/
theorem voice_default_counterexample :
    voiceIdIndex none = 1 ∧ (1 : ℤ) ≠ 2 := by
  constructor
  · rfl
  · decide

/-- C8 amended: a `voiceId` value in `[1, 2, 3]` is used as given by both
handlers and maps through the environment voice table; but in
`src/index.js` the default for a missing, empty, unparsable or out-of-range
value is 1 (which selects the `VOICE_1_TTS` chain), while in
`src/web-demo-live.js` only a missing or empty value defaults to "2" and an
unparsable or out-of-range value falls back to the default TTS voice name
instead of voice 2. -/
theorem voice_selection_amended :
    (voiceIdIndex (some "1") = 1 ∧ voiceIdIndex (some "2") = 2 ∧ voiceIdIndex (some "3") = 3) ∧
    (voiceIdIndex none = 1 ∧ voiceIdIndex (some "") = 1 ∧
      voiceIdIndex (some "abc") = 1 ∧ voiceIdIndex (some "4") = 1) ∧
    (wdlVoiceId none = "2" ∧ wdlVoiceId (some "") = "2" ∧
      wdlVoiceId (some "3") = "3") ∧
    (∀ e1 e2 e3 dflt,
      wdlTtsVoice e1 e2 e3 dflt (some "4") = jsTrim dflt ∧
      wdlTtsVoice e1 e2 e3 dflt (some "abc") = jsTrim dflt ∧
      (wdlTtsVoice e1 e2 e3 dflt (some "2") = jsTrim (jsOr e2 dflt) ∨ jsOr e2 dflt = "")) ∧
    (∀ ev dg, indexTtsVoice ev dg (voiceIdIndex none) =
      jsOr (ev 1) (jsOr dg "aura-2-odysseus-en")) := by
  refine ⟨⟨rfl, rfl, rfl⟩, ⟨rfl, rfl, rfl, rfl⟩, ⟨rfl, rfl, rfl⟩, ?_, ?_⟩
  · intro e1 e2 e3 dflt
    refine ⟨rfl, rfl, ?_⟩
    by_cases h : jsOr e2 dflt = ""
    · exact Or.inr h
    · left
      show jsTrim (if jsOr e2 dflt = "" then dflt else jsOr e2 dflt) = jsTrim (jsOr e2 dflt)
      rw [if_neg h]
  · intro ev dg
    rfl

/-- C3 counterexample: for the agent event
`\x7btype: Transcript, role: user, text: hello, partial: false\x7d` the
primary bridge (`src/index.js`) sends the client `partial: true`, because
its finality heuristic (line 162) never reads the `partial` property; the
claimed message with `partial: false` is not what the client receives. -/
theorem transcript_partial_counterexample :
    (agentEvtStep initSession c3evt).2 =
      [Action.clientText (transcriptWire "User" "hello" true)] ∧
    (agentEvtStep initSession c3evt).2 ≠ [Action.clientText c3Claimed] := by
  constructor
  · rfl
  · decide

/-- C3 amended: the `web-demo-live` bridge translates the event to exactly
the claimed client message (`partial: false`, from the `partial` property),
while the primary `src/index.js` bridge sends the same message except with
`partial: true`, derived from its finality heuristic. -/
theorem transcript_translation_amended :
    (∀ (g : Bool) (s : WdlState),
      (wdlEvtStep g s c3evt).2 = [Action.clientText c3Claimed]) ∧
    (∀ s : SessionState,
      (agentEvtStep s c3evt).2 =
        [Action.clientText (transcriptWire "User" "hello" true)]) := by
  constructor
  · intro g s
    rfl
  · intro s
    rfl

/-! ## Lemmas about the action lists and the mic drain loop -/

theorem agentFrames_append (a b : List Action) :
    agentFrames (a ++ b) = agentFrames a ++ agentFrames b := by
  simp [agentFrames]

theorem agentFrames_map (l : List Frame) :
    agentFrames (l.map Action.agentFrame) = l := by
  induction l with
  | nil => rfl
  | cons x xs ih => simp [agentFrames] at ih ⊢; exact ih

theorem settingsSends_append (a b : List Action) :
    settingsSends (a ++ b) = settingsSends a + settingsSends b := by
  simp [settingsSends]

theorem settingsSends_frames (l : List Frame) :
    settingsSends (l.map Action.agentFrame) = 0 := by
  induction l with
  | nil => rfl
  | cons x xs ih => simpa [settingsSends] using ih

/-- While the handshake is incomplete, the drain loop enqueues every
complete frame into the pre-roll buffer (drop-oldest at capacity 200),
keeps the remainder in the carry buffer, and sends nothing. -/
theorem drainMic_buffered (ss sa : Bool) (pre : List Frame) (buf : List Byte)
    (hns : ss = false ∨ sa = false) :
    drainMic ss sa pre buf =
      ((chunks640 buf).foldl (preEnqueue MAX_PRE_FRAMES) pre, rem640 buf, []) := by
  have hc : (!ss || !sa) = true := by
    rcases hns with h1 | h1 <;> simp [h1]
  induction pre, buf using drainMic.induct ss sa with
  | case1 pre buf h fr rest hcond ih =>
    rw [drainMic, chunks640, rem640]
    simp only [h, dif_pos, hc, if_pos, List.foldl_cons]
    exact ih
  | case2 pre buf h rest hcond ih =>
    rw [hc] at hcond
    simp at hcond
  | case3 pre buf h =>
    rw [drainMic, chunks640, rem640]
    simp [h]

/-- Once the handshake completed, the drain loop forwards every complete
frame to the agent in arrival order and leaves the pre-roll buffer
alone. -/
theorem drainMic_streaming (pre : List Frame) (buf : List Byte) :
    drainMic true true pre buf =
      (pre, rem640 buf, (chunks640 buf).map Action.agentFrame) := by
  induction buf using chunks640.induct with
  | case1 buf h ih =>
    rw [drainMic, chunks640, rem640]
    simp [h, ih]
  | case2 buf h =>
    rw [drainMic, chunks640, rem640]
    simp [h]

/-- The drain loop never sends the settings payload. -/
theorem drainMic_no_settings (ss sa : Bool) (pre : List Frame) (buf : List Byte) :
    settingsSends (drainMic ss sa pre buf).2.2 = 0 := by
  rcases hss : ss with _ | _
  · rw [drainMic_buffered false sa pre buf (Or.inl rfl)]
    rfl
  · rcases hsa : sa with _ | _
    · rw [drainMic_buffered true false pre buf (Or.inr rfl)]
      rfl
    · rw [drainMic_streaming pre buf]
      exact settingsSends_frames _

/-! ## Step lemmas for the session machine -/

/-- No event resets the `settingsSent` flag. -/
theorem step_settingsSent_mono (s : SessionState) (e : Ev) (h : s.settingsSent = true) :
    (step s e).1.settingsSent = true := by
  cases e with
  | agentOpenEv => simp [step, agentOpenStep, sendSettings, h]
  | agentMsg m =>
    cases m with
    | evt ev =>
      simp only [step, agentEvtStep]
      split_ifs <;> simp [sendSettings, h]
    | audio d => simpa [step, agentBinaryStep] using h
  | browserAudio d =>
    simp only [step, browserMsgStep]
    split_ifs <;> simp [h]
  | browserText => simpa [step] using h
  | browserClose =>
    simp only [step, safeClose]
    split_ifs <;> simp [h]
  | agentCloseEv =>
    simp only [step, agentCloseStep, safeClose]
    split_ifs <;> simp [h]

/-- While the settings are unacknowledged and the event is not
`SettingsApplied`, `settingsApplied` stays false and no audio frame goes to
the agent. -/
theorem step_preserves_unapplied (s : SessionState) (e : Ev)
    (hsa : s.settingsApplied = false) (he : isSettingsAppliedEv e = false) :
    (step s e).1.settingsApplied = false ∧ agentFrames (step s e).2 = [] := by
  cases e with
  | agentOpenEv =>
    simp only [step, agentOpenStep, sendSettings]
    split_ifs <;> simp [agentFrames, hsa]
  | agentMsg m =>
    cases m with
    | evt ev =>
      have hne : (ev.type == "SettingsApplied") = false := by
        simpa [isSettingsAppliedEv] using he
      simp only [step, agentEvtStep, hne, Bool.false_eq_true, if_false, sendSettings]
      split_ifs <;> simp [agentFrames, hsa]
    | audio d => simp [step, agentBinaryStep, agentFrames, hsa]
  | browserAudio d =>
    simp only [step, browserMsgStep]
    split_ifs with hopen
    · simp [agentFrames, hsa]
    · rw [drainMic_buffered s.settingsSent s.settingsApplied s.preFrames (s.micBuf ++ d)
        (Or.inr hsa)]
      simp [agentFrames, hsa]
  | browserText => simp [step, agentFrames, hsa]
  | browserClose =>
    simp only [step, safeClose]
    split_ifs <;> simp [agentFrames, hsa]
  | agentCloseEv =>
    simp only [step, agentCloseStep, safeClose]
    split_ifs <;> simp [agentFrames, hsa]

/-- Run-level version of `step_preserves_unapplied`. -/
theorem runFrom_unapplied_no_frames (es : List Ev) : ∀ s : SessionState,
    s.settingsApplied = false →
    (∀ e ∈ es, isSettingsAppliedEv e = false) →
    agentFrames (runFrom s es).2 = [] := by
  induction es with
  | nil =>
    intro s _ _
    rfl
  | cons e es ih =>
    intro s hsa hall
    have h1 := step_preserves_unapplied s e hsa (hall e (List.mem_cons_self e es))
    simp only [runFrom]
    rw [agentFrames_append, h1.2,
      ih _ h1.1 (fun e' he' => hall e' (List.mem_cons_of_mem _ he'))]
    rfl

/-- What one `SettingsApplied` event does: mark the settings applied,
clear the pre-roll buffer, and (while the socket is open, so the sends in
the `try` succeed) forward the held frames in order. -/
theorem agentEvtStep_SA (s : SessionState) (e : AgentEvt)
    (h : e.type = "SettingsApplied") :
    agentEvtStep s e =
      ({ s with settingsApplied := true, preFrames := [] },
        if s.agentOpen = true then s.preFrames.map Action.agentFrame else []) := by
  simp only [agentEvtStep, h]
  by_cases hp : s.preFrames = []
  · simp [hp]
  · simp [hp]

/-- On `SettingsApplied` the pre-roll buffer is flushed to the agent in
arrival order (all sends succeed while the socket is open) and cleared. -/
theorem agentEvtStep_flush (s : SessionState) (e : AgentEvt)
    (h : e.type = "SettingsApplied") :
    (agentEvtStep s e).1.preFrames = [] ∧
    (agentEvtStep s e).1.settingsApplied = true ∧
    (s.agentOpen = true → agentFrames (agentEvtStep s e).2 = s.preFrames) := by
  rw [agentEvtStep_SA s e h]
  refine ⟨rfl, rfl, fun ho => ?_⟩
  rw [if_pos ho]
  exact agentFrames_map _

/-- No event resets the `settingsSent` flag along a run. -/
theorem runFrom_settingsSent_mono (es : List Ev) : ∀ s : SessionState,
    s.settingsSent = true → (runFrom s es).1.settingsSent = true := by
  induction es with
  | nil =>
    intro s h
    simpa [runFrom] using h
  | cons e es ih =>
    intro s h
    simp only [runFrom]
    exact ih _ (step_settingsSent_mono s e h)

/-- A step from a state with the settings already sent never resends. -/
theorem step_settings_count0 (s : SessionState) (e : Ev) (h : s.settingsSent = true) :
    settingsSends (step s e).2 = 0 := by
  cases e with
  | agentOpenEv =>
    simp [step, agentOpenStep, sendSettings, settingsSends, h]
  | agentMsg m =>
    cases m with
    | evt ev =>
      simp only [step, agentEvtStep]
      split_ifs <;>
        simp_all [sendSettings, settingsSends, settingsSends_frames]
    | audio d =>
      simp [step, agentBinaryStep, settingsSends]
  | browserAudio d =>
    simp only [step, browserMsgStep]
    split_ifs
    · simp [settingsSends]
    · exact drainMic_no_settings _ _ _ _
  | browserText =>
    simp [step, settingsSends]
  | browserClose =>
    simp only [step, safeClose]
    split_ifs <;> simp [settingsSends]
  | agentCloseEv =>
    simp only [step, agentCloseStep, safeClose]
    split_ifs <;> simp [settingsSends]

/-- A step from a state with the settings not yet sent transmits them
exactly when it flips the flag. -/
theorem step_settings_count1 (s : SessionState) (e : Ev) (h : s.settingsSent = false) :
    settingsSends (step s e).2 =
      if (step s e).1.settingsSent = true then 1 else 0 := by
  cases e with
  | agentOpenEv =>
    simp [step, agentOpenStep, sendSettings, settingsSends, h]
  | agentMsg m =>
    cases m with
    | evt ev =>
      simp only [step, agentEvtStep]
      split_ifs <;>
        rcases ho : s.agentOpen with _ | _ <;>
          simp_all [sendSettings, settingsSends, settingsSends_frames]
    | audio d =>
      simp [step, agentBinaryStep, settingsSends, h]
  | browserAudio d =>
    have h0 : settingsSends (step s (Ev.browserAudio d)).2 = 0 := by
      simp only [step, browserMsgStep]
      split_ifs
      · rfl
      · exact drainMic_no_settings _ _ _ _
    have h1 : (step s (Ev.browserAudio d)).1.settingsSent = s.settingsSent := by
      simp only [step, browserMsgStep]
      split_ifs <;> rfl
    rw [h0, h1, h]
    simp
  | browserText =>
    simp [step, settingsSends, h]
  | browserClose =>
    have h1 : (step s Ev.browserClose).1.settingsSent = s.settingsSent := by
      simp only [step, safeClose]
      split_ifs <;> rfl
    have h0 : settingsSends (step s Ev.browserClose).2 = 0 := by
      simp only [step, safeClose]
      split_ifs <;> rfl
    rw [h0, h1, h]
    simp
  | agentCloseEv =>
    have h1 : (step s Ev.agentCloseEv).1.settingsSent = s.settingsSent := by
      simp only [step, agentCloseStep, safeClose]
      split_ifs <;> rfl
    have h0 : settingsSends (step s Ev.agentCloseEv).2 = 0 := by
      simp only [step, agentCloseStep, safeClose]
      split_ifs <;> rfl
    rw [h0, h1, h]
    simp

/-- A run from a state with the settings already sent never resends. -/
theorem runFrom_settings_count0 (es : List Ev) : ∀ s : SessionState,
    s.settingsSent = true → settingsSends (runFrom s es).2 = 0 := by
  induction es with
  | nil =>
    intro s _
    rfl
  | cons e es ih =>
    intro s h
    simp only [runFrom, settingsSends_append]
    rw [step_settings_count0 s e h, ih _ (step_settingsSent_mono s e h)]

/-- A run from a state with the settings not yet sent transmits them
exactly when it ends with the flag set. -/
theorem runFrom_settings_count1 (es : List Ev) : ∀ s : SessionState,
    s.settingsSent = false →
    settingsSends (runFrom s es).2 =
      if (runFrom s es).1.settingsSent = true then 1 else 0 := by
  induction es with
  | nil =>
    intro s h
    simp [runFrom, settingsSends, h]
  | cons e es ih =>
    intro s h
    simp only [runFrom, settingsSends_append]
    rw [step_settings_count1 s e h]
    rcases h1 : (step s e).1.settingsSent with _ | _
    · rw [ih _ h1]
      simp
    · have h2 := runFrom_settingsSent_mono es _ h1
      rw [runFrom_settings_count0 es _ h1]
      simp only [runFrom] at h2
      simp [h2]

/-- A trigger event (open, or Welcome while the socket is open) leaves
`settingsSent` true. -/
theorem step_trigger_sets (s : SessionState) (e : Ev) (ht : isTrigger e = true)
    (hwf : isAgentMsg e = true → s.agentOpen = true) :
    (step s e).1.settingsSent = true := by
  cases e with
  | agentOpenEv =>
    rcases h : s.settingsSent <;> simp [step, agentOpenStep, sendSettings, h]
  | agentMsg m =>
    cases m with
    | evt ev =>
      have hw : (ev.type == "Welcome") = true := by simpa [isTrigger] using ht
      have ho : s.agentOpen = true := hwf (by simp [isAgentMsg])
      rcases h : s.settingsSent <;>
        simp [step, agentEvtStep, hw, sendSettings, h, ho]
    | audio d => simp [isTrigger] at ht
  | browserAudio d => simp [isTrigger] at ht
  | browserText => simp [isTrigger] at ht
  | browserClose => simp [isTrigger] at ht
  | agentCloseEv => simp [isTrigger] at ht

/-- A well-formed run containing a trigger ends with `settingsSent`. -/
theorem runFrom_trigger_sent (es : List Ev) : ∀ s : SessionState, WFFrom s es →
    (∃ e ∈ es, isTrigger e = true) → (runFrom s es).1.settingsSent = true := by
  induction es with
  | nil =>
    intro s _ hex
    simp at hex
  | cons e es ih =>
    intro s hwf hex
    obtain ⟨hwf1, hwf2⟩ := hwf
    simp only [runFrom]
    rcases ht : isTrigger e with _ | _
    · obtain ⟨e', he', ht'⟩ := hex
      rcases List.mem_cons.mp he' with rfl | hmem
      · rw [ht'] at ht
        cases ht
      · exact ih _ hwf2 ⟨e', hmem, ht'⟩
    · exact runFrom_settingsSent_mono es _ (step_trigger_sets s e ht hwf1)

/-! ## The claims about the session machine -/

/-- C1: for every interleaving of callback events, no audio frame is sent
to the agent connection before a `SettingsApplied` event has been received
(first conjunct, over all traces without one); on `SettingsApplied` the
held frames are forwarded in arrival order and the buffer is cleared
(second conjunct); and while the handshake is incomplete an inbound audio
chunk only lands in the pre-roll buffer and the carry remainder, with
nothing sent to the agent (third conjunct). -/
theorem handshake_ordering :
    (∀ es : List Ev, (∀ e ∈ es, isSettingsAppliedEv e = false) →
      agentFrames (run es).2 = []) ∧
    (∀ (s : SessionState) (e : AgentEvt), e.type = "SettingsApplied" →
      (agentEvtStep s e).1.preFrames = [] ∧
      (s.agentOpen = true → agentFrames (agentEvtStep s e).2 = s.preFrames)) ∧
    (∀ (s : SessionState) (data : List Byte), s.agentOpen = true →
      (s.settingsSent = false ∨ s.settingsApplied = false) →
      agentFrames (browserMsgStep s data).2 = [] ∧
      (browserMsgStep s data).1.preFrames =
        (chunks640 (s.micBuf ++ data)).foldl (preEnqueue MAX_PRE_FRAMES) s.preFrames ∧
      (browserMsgStep s data).1.micBuf = rem640 (s.micBuf ++ data)) := by
  refine ⟨?_, ?_, ?_⟩
  · intro es hall
    exact runFrom_unapplied_no_frames es initSession rfl hall
  · intro s e h
    exact ⟨(agentEvtStep_flush s e h).1, (agentEvtStep_flush s e h).2.2⟩
  · intro s data hopen hns
    simp only [browserMsgStep, hopen, Bool.not_true, Bool.false_eq_true, if_false]
    rw [drainMic_buffered s.settingsSent s.settingsApplied s.preFrames (s.micBuf ++ data) hns]
    simp [agentFrames]

/-- Witness for C1 at concrete inputs. -/
theorem handshake_ordering_witness :
    agentFrames (run [Ev.agentOpenEv, Ev.browserAudio [0, 1, 2]]).2 = [] ∧
    (agentEvtStep initSession { type := "SettingsApplied" }).1.preFrames = [] :=
  ⟨handshake_ordering.1 [Ev.agentOpenEv, Ev.browserAudio [0, 1, 2]] (by decide),
   (handshake_ordering.2.1 initSession { type := "SettingsApplied" } rfl).1⟩

/-- The pre-roll enqueue keeps the buffer within its capacity. -/
theorem preEnqueue_length_le (cap : ℕ) (buf : List Frame) (fr : Frame)
    (h : buf.length ≤ cap) : (preEnqueue cap buf fr).length ≤ cap := by
  simp only [preEnqueue]
  split_ifs with hc <;> simp_all <;> omega

/-- Any enqueue sequence from a within-capacity buffer stays within
capacity. -/
theorem foldl_preEnqueue_le (cap : ℕ) (frs : List Frame) :
    ∀ buf : List Frame, buf.length ≤ cap →
      (frs.foldl (preEnqueue cap) buf).length ≤ cap := by
  induction frs with
  | nil =>
    intro buf h
    simpa using h
  | cons f fs ih =>
    intro buf h
    exact ih _ (preEnqueue_length_le cap buf f h)

/-- C2: the pre-roll buffer of the primary bridge is capped at 200 frames;
an enqueue never grows any buffer past its configured capacity; enqueuing
into a full buffer drops the oldest entry and appends the new one; and the
`SettingsApplied` flush replays the remaining entries to the agent in
original arrival order and leaves the buffer empty. -/
theorem preroll_bounded_fifo :
    MAX_PRE_FRAMES = 200 ∧
    (∀ (cap : ℕ) (buf : List Frame) (fr : Frame), buf.length ≤ cap →
      (preEnqueue cap buf fr).length ≤ cap) ∧
    (∀ frs : List Frame, (frs.foldl (preEnqueue MAX_PRE_FRAMES) []).length ≤ 200) ∧
    (∀ (cap : ℕ) (buf : List Frame) (fr : Frame), 0 < cap → buf.length = cap →
      preEnqueue cap buf fr = buf.tail ++ [fr]) ∧
    (∀ (s : SessionState) (e : AgentEvt), e.type = "SettingsApplied" →
      (agentEvtStep s e).1.preFrames = [] ∧
      (s.agentOpen = true → agentFrames (agentEvtStep s e).2 = s.preFrames)) := by
  refine ⟨rfl, preEnqueue_length_le, ?_, ?_, ?_⟩
  · intro frs
    exact foldl_preEnqueue_le MAX_PRE_FRAMES frs [] (by simp)
  · intro cap buf fr h0 h
    rcases buf with _ | ⟨b, bs⟩
    · simp at h
      omega
    · simp only [preEnqueue]
      rw [if_pos]
      · rfl
      · simp [← h]
  · intro s e h
    exact ⟨(agentEvtStep_flush s e h).1, (agentEvtStep_flush s e h).2.2⟩

/-- Witness for C2 at concrete inputs. -/
theorem preroll_bounded_fifo_witness :
    (preEnqueue 200 [[0], [1]] [2]).length ≤ 200 ∧
    preEnqueue 2 [[0], [1]] [2] = [[1], [2]] :=
  ⟨preroll_bounded_fifo.2.1 200 [[0], [1]] [2] (by decide),
   preroll_bounded_fifo.2.2.2.1 2 [[0], [1]] [2] (by decide) rfl⟩

/-- C7: for any interleaving of open and `Welcome` triggers (and any other
events) the settings payload is sent to the agent at most once; exactly
once when the trace is transport-sane and contains a trigger; and once
`settingsSent` holds, `sendSettings` is a no-op. -/
theorem settings_sent_exactly_once :
    (∀ es : List Ev, settingsSends (run es).2 ≤ 1) ∧
    (∀ es : List Ev, WF es → (∃ e ∈ es, isTrigger e = true) →
      settingsSends (run es).2 = 1) ∧
    (∀ s : SessionState, s.settingsSent = true → sendSettings s = (s, [])) := by
  refine ⟨?_, ?_, ?_⟩
  · intro es
    rw [run, runFrom_settings_count1 es initSession rfl]
    split_ifs <;> omega
  · intro es hwf hex
    rw [run, runFrom_settings_count1 es initSession rfl]
    rw [if_pos (runFrom_trigger_sent es _ hwf hex)]
  · intro s h
    simp [sendSettings, h]

/-- Witness for C7 at a concrete trace with one open trigger. -/
theorem settings_sent_exactly_once_witness :
    settingsSends (run [Ev.agentOpenEv]).2 = 1 := by
  apply settings_sent_exactly_once.2.1
  · exact ⟨by simp [isAgentMsg], trivial⟩
  · exact ⟨Ev.agentOpenEv, by simp, rfl⟩

/-! ## The playback unpacker -/

/-- `port.onmessage` preserves the player invariant: a zero-length buffer
is never enqueued. -/
theorem playerOnMessage_inv (st : PlayerState) (d : Option (List ℚ))
    (h : PlayerInv st) : PlayerInv (playerOnMessage st d) := by
  obtain ⟨h1, h2⟩ := h
  cases d with
  | none => exact ⟨h1, h2⟩
  | some f32 =>
    simp only [playerOnMessage]
    split_ifs with hl
    · refine ⟨?_, ?_⟩
      · intro c hc
        rcases List.mem_append.mp hc with hc | hc
        · exact h1 c hc
        · simp only [List.mem_singleton] at hc
          subst hc
          exact fun hnil => hl (by simp [hnil])
      · rcases hq : st.queue with _ | ⟨c, cs⟩
        · simp only [hq] at h2 ⊢
          simp [h2]
          omega
        · simp only [hq] at h2 ⊢
          simpa using h2
    · exact ⟨h1, h2⟩

/-- The render loop fills exactly `n` slots, keeps the invariant (so every
head-chunk read it performs is in bounds), and every emitted sample is
either silence or a sample of some queued chunk. -/
theorem playerProcess_spec (n : ℕ) : ∀ st : PlayerState, PlayerInv st →
    (playerProcess st n).1.length = n ∧ PlayerInv (playerProcess st n).2 ∧
    (∀ x ∈ (playerProcess st n).1, x = 0 ∨ ∃ c ∈ st.queue, x ∈ c) := by
  induction n with
  | zero =>
    intro st h
    exact ⟨rfl, h, by simp [playerProcess]⟩
  | succ n ih =>
    intro st h
    obtain ⟨h1, h2⟩ := h
    rcases hq : st.queue with _ | ⟨chunk, rest⟩
    · have hres := ih st ⟨h1, h2⟩
      simp only [playerProcess, hq]
      refine ⟨by simp [hres.1], hres.2.1, ?_⟩
      intro x hx
      rcases List.mem_cons.mp hx with rfl | hx
      · exact Or.inl rfl
      · rcases hres.2.2 x hx with h0 | ⟨c, hc, _⟩
        · exact Or.inl h0
        · rw [hq] at hc
          simp at hc
    · simp only [hq] at h2
      have hmem : chunk.getD st.readIndex 0 ∈ chunk := by
        rw [List.getD_eq_getElem chunk 0 h2]
        exact List.getElem_mem h2
      have hinv1 : PlayerInv (if chunk.length ≤ st.readIndex + 1
          then PlayerState.mk rest 0
          else PlayerState.mk (chunk :: rest) (st.readIndex + 1)) := by
        split_ifs with hend
        · refine ⟨fun c hc => h1 c (by rw [hq]; exact List.mem_cons_of_mem _ hc), ?_⟩
          rcases hr : rest with _ | ⟨c, cs⟩
          · rfl
          · have : c ≠ [] := h1 c (by rw [hq, hr]; simp)
            simpa using List.length_pos.mpr this
        · refine ⟨fun c hc => h1 c (by rw [hq]; exact hc), ?_⟩
          simpa using Nat.lt_of_not_le hend
      have hres := ih _ hinv1
      simp only [playerProcess, hq]
      refine ⟨by simp [hres.1], hres.2.1, ?_⟩
      intro x hx
      rcases List.mem_cons.mp hx with rfl | hx
      · exact Or.inr ⟨chunk, List.mem_cons_self chunk rest, hmem⟩
      · rcases hres.2.2 x hx with hx0 | ⟨c, hc, hxc⟩
        · exact Or.inl hx0
        · refine Or.inr ⟨c, ?_, hxc⟩
          revert hc
          split_ifs with hend <;> intro hc
          · exact List.mem_cons_of_mem _ hc
          · exact hc

/-- The invariant holds at every state reachable from the initial one. -/
theorem playerRun_inv (ops : List PlayerOp) : ∀ st : PlayerState,
    PlayerInv st → PlayerInv (playerRun st ops) := by
  induction ops with
  | nil =>
    intro st h
    exact h
  | cons op ops ih =>
    intro op1
    intro h
    cases op with
    | message d => exact ih _ (playerOnMessage_inv op1 d h)
    | render n => exact ih _ (playerProcess_spec n op1 h).2.1

/-- C10: the playback unpacker never enqueues an empty chunk, so in every
reachable state the read of the head chunk at the read index is in bounds
(the invariant); each render callback terminates having filled every one of
its `n` output slots with either a queued sample or silence 0 on
underrun. -/
theorem player_renders_safely :
    (∀ ops : List PlayerOp, PlayerInv (playerRun initPlayer ops)) ∧
    (∀ (st : PlayerState) (d : Option (List ℚ)), PlayerInv st →
      PlayerInv (playerOnMessage st d)) ∧
    (∀ (st : PlayerState) (n : ℕ), PlayerInv st →
      (playerProcess st n).1.length = n ∧ PlayerInv (playerProcess st n).2 ∧
      (∀ x ∈ (playerProcess st n).1, x = 0 ∨ ∃ c ∈ st.queue, x ∈ c)) := by
  refine ⟨?_, playerOnMessage_inv, fun st n h => playerProcess_spec n st h⟩
  intro ops
  refine playerRun_inv ops initPlayer ⟨?_, rfl⟩
  intro c hc
  simp [initPlayer] at hc

/-- Witness for C10 at concrete inputs. -/
theorem player_renders_safely_witness :
    PlayerInv (playerOnMessage initPlayer (some [1, 2])) ∧
    (playerProcess initPlayer 3).1.length = 3 :=
  ⟨player_renders_safely.2.1 initPlayer (some [1, 2])
      ⟨by intro c hc; simp [initPlayer] at hc, rfl⟩,
   (player_renders_safely.2.2 initPlayer 3
      ⟨by intro c hc; simp [initPlayer] at hc, rfl⟩).1⟩

/-! ## The frame packer -/

/-- The clamp maps every rational into the interval from -1 to 1. -/
theorem clampUnit_mem (v : ℚ) : -1 ≤ clampUnit v ∧ clampUnit v ≤ 1 := by
  unfold clampUnit
  split_ifs <;> constructor <;> linarith

/-- The quantizer never leaves the signed 16-bit range. -/
theorem quantize16_range (v : ℚ) : -32768 ≤ quantize16 v ∧ quantize16 v ≤ 32767 := by
  obtain ⟨hl, hu⟩ := clampUnit_mem v
  have hq : quantize16 v =
      truncQ (if clampUnit v < 0 then clampUnit v * 32768 else clampUnit v * 32767) := rfl
  rw [hq]
  by_cases h : clampUnit v < 0
  · rw [if_pos h]
    unfold truncQ
    rw [if_pos (mul_neg_of_neg_of_pos h (by norm_num))]
    constructor
    · have h1 : ⌊-(clampUnit v * 32768)⌋ ≤ ⌊(32768 : ℚ)⌋ :=
        Int.floor_le_floor (by linarith)
      have h2 : ⌊(32768 : ℚ)⌋ = 32768 := by norm_num
      omega
    · have h3 : 0 ≤ ⌊-(clampUnit v * 32768)⌋ := Int.floor_nonneg.mpr (by linarith)
      omega
  · rw [if_neg h]
    unfold truncQ
    push_neg at h
    rw [if_neg (not_lt.mpr (by linarith : (0 : ℚ) ≤ clampUnit v * 32767))]
    constructor
    · have h3 : 0 ≤ ⌊clampUnit v * 32767⌋ := Int.floor_nonneg.mpr (by linarith)
      omega
    · have h1 : ⌊clampUnit v * 32767⌋ ≤ ⌊(32767 : ℚ)⌋ :=
        Int.floor_le_floor (by linarith)
      have h2 : ⌊(32767 : ℚ)⌋ = 32767 := by norm_num
      omega

/-- C5: the frame packer only ever emits frames of exactly 320 samples
(640 bytes at 2 bytes per sample) and keeps any partial remainder queued;
the quantizer clamps to the unit interval, maps +1.0 to 32767 and -1.0 to
-32768, and never leaves the signed 16-bit range for any input value. -/
theorem frame_packer_exact :
    (∀ q : List ℚ, ((flushFrames q).1.all fun f => f.length == FRAME_SAMPLES) = true) ∧
    (∀ q : List ℚ, (flushFrames q).2.length < FRAME_SAMPLES) ∧
    2 * FRAME_SAMPLES = 640 ∧
    quantize16 1 = 32767 ∧
    quantize16 (-1) = -32768 ∧
    (∀ v : ℚ, -32768 ≤ quantize16 v ∧ quantize16 v ≤ 32767) := by
  refine ⟨?_, ?_, rfl, ?_, ?_, quantize16_range⟩
  · intro q
    induction q using flushFrames.induct with
    | case1 q h ih =>
      rw [flushFrames]
      simp only [h, dif_pos, List.all_cons, ih, Bool.and_true]
      simp [List.length_take, min_eq_left h]
    | case2 q h =>
      rw [flushFrames]
      simp [h]
  · intro q
    induction q using flushFrames.induct with
    | case1 q h ih =>
      rw [flushFrames]
      simpa [h] using ih
    | case2 q h =>
      rw [flushFrames]
      simp [h]
      omega
  · norm_num [quantize16, clampUnit, truncQ]
  · norm_num [quantize16, clampUnit, truncQ]

/-! ## The resampler -/

/-- The loop advances the cursor by the ratio once per produced sample. -/
theorem resampleLoop_pos (r : ℚ) (buf : List ℚ) : ∀ (fuel : ℕ) (p : ℚ),
    (resampleLoop r fuel buf p).2 = p + ((resampleLoop r fuel buf p).1.length : ℚ) * r := by
  intro fuel
  induction fuel with
  | zero =>
    intro p
    simp [resampleLoop]
  | succ fuel ih =>
    intro p
    rw [resampleLoop]
    split_ifs with hc
    · simp only [List.length_cons]
      rw [ih (p + r)]
      push_cast
      ring
    · simp

/-- With a ratio of at least one, fuel equal to the remaining distance
suffices: the loop ends with its condition false. -/
theorem resampleLoop_halts (r : ℚ) (hr : 1 ≤ r) (buf : List ℚ) : ∀ (fuel : ℕ) (p : ℚ),
    (buf.length : ℚ) - 1 - p ≤ (fuel : ℚ) →
    ¬ ((resampleLoop r fuel buf p).2 + 1 < (buf.length : ℚ)) := by
  intro fuel
  induction fuel with
  | zero =>
    intro p hf
    simp only [resampleLoop, Nat.cast_zero] at hf ⊢
    linarith
  | succ fuel ih =>
    intro p hf
    rw [resampleLoop]
    split_ifs with hc
    · exact ih (p + r) (by push_cast at hf ⊢; linarith)
    · simpa using hc

/-- Every produced sample was produced with the loop condition true; in
particular the condition held just before the last one. -/
theorem resampleLoop_last (r : ℚ) (buf : List ℚ) : ∀ (fuel : ℕ) (p : ℚ) (k : ℕ),
    (resampleLoop r fuel buf p).1.length = k + 1 →
    p + (k : ℚ) * r + 1 < (buf.length : ℚ) := by
  intro fuel
  induction fuel with
  | zero =>
    intro p k h
    simp [resampleLoop] at h
  | succ fuel ih =>
    intro p k h
    rw [resampleLoop] at h
    by_cases hc : p + 1 < (buf.length : ℚ)
    · rw [if_pos hc] at h
      simp only [List.length_cons, Nat.add_right_cancel_iff] at h
      rcases k with _ | k
      · simpa using hc
      · have := ih (p + r) k h
        push_cast at this ⊢
        linarith
    · rw [if_neg hc] at h
      simp at h

/-- The resampler invariant between blocks: the cursor is a non-negative
proper fraction, at most one input sample is retained, and on an empty
history the cursor is at most `ratio - 1` (so the next block cannot fall
more than one output sample behind). -/
def RInv (r : ℚ) (st : RState) : Prop :=
  0 ≤ st.pos ∧ st.pos < 1 ∧ st.inBuf.length ≤ 1 ∧
    (st.inBuf.length = 0 → st.pos ≤ r - 1)

/-- The initial resampler state satisfies the invariant. -/
theorem RInv_init (r : ℚ) (hr : 1 ≤ r) : RInv r initR := by
  refine ⟨le_refl 0, by norm_num [initR], by simp [initR], fun _ => ?_⟩
  simp only [initR]
  linarith

/-- One block preserves the resampler invariant. -/
theorem resampleBlock_inv (r : ℚ) (hr : 1 ≤ r) (st : RState) (hst : RInv r st)
    (input : List ℚ) : RInv r (resampleBlock r st input).2 := by
  obtain ⟨hp0, hp1, hlen, hl0⟩ := hst
  have hr0 : (0 : ℚ) < r := lt_of_lt_of_le one_pos hr
  simp only [resampleBlock]
  set buf := st.inBuf ++ input with hbuf
  set res := resampleLoop r buf.length buf st.pos with hres
  have hpos : res.2 = st.pos + ((res.1.length : ℚ)) * r := resampleLoop_pos r buf buf.length st.pos
  have hstop : (buf.length : ℚ) ≤ res.2 + 1 := by
    have h := resampleLoop_halts r hr buf buf.length st.pos (by push_cast; linarith)
    rw [← hres] at h
    linarith [not_lt.mp h]
  have hnn : 0 ≤ res.2 := by
    rw [hpos]
    have : (0 : ℚ) ≤ ((res.1.length : ℚ)) * r :=
      mul_nonneg (Nat.cast_nonneg _) (le_of_lt hr0)
    linarith
  by_cases hcons : (0 : ℤ) < ⌊res.2⌋
  · rw [if_pos hcons]
    have hfle : (⌊res.2⌋ : ℚ) ≤ res.2 := Int.floor_le res.2
    have hflt : res.2 < (⌊res.2⌋ : ℚ) + 1 := Int.lt_floor_add_one res.2
    simp only [RInv, List.length_drop]
    refine ⟨by linarith, by linarith, ?_, ?_⟩
    · have hfl : (buf.length : ℤ) - 1 ≤ ⌊res.2⌋ := by
        rw [Int.le_floor]
        push_cast
        linarith
      omega
    · intro hz
      have hge : (buf.length : ℤ) ≤ ⌊res.2⌋ := by omega
      have hgeq : ((buf.length : ℚ)) ≤ ((⌊res.2⌋ : ℤ) : ℚ) := by exact_mod_cast hge
      rcases hk : res.1.length with _ | k
      · rw [hk] at hpos
        simp only [Nat.cast_zero, zero_mul, add_zero] at hpos
        have hfz : ⌊res.2⌋ = 0 := by
          rw [hpos]
          exact Int.floor_eq_zero_iff.mpr ⟨hp0, hp1⟩
        omega
      · have hlast := resampleLoop_last r buf buf.length st.pos k (by rw [← hres, hk])
        rw [hk] at hpos
        push_cast at hpos
        linarith
  · rw [if_neg hcons]
    push_neg at hcons
    have hcq : ((⌊res.2⌋ : ℤ) : ℚ) ≤ 0 := by exact_mod_cast hcons
    have hlt1 : res.2 < 1 := by
      have := Int.lt_floor_add_one res.2
      linarith
    simp only [RInv]
    refine ⟨hnn, hlt1, ?_, ?_⟩
    · have h2 : (buf.length : ℚ) < 2 := by linarith
      have : buf.length < 2 := by exact_mod_cast h2
      omega
    · intro hz
      have hres0 : res.2 = st.pos := by
        have heq0 : resampleLoop r buf.length buf st.pos = resampleLoop r 0 buf st.pos := by
          rw [hz]
        rw [hres, heq0]
        rfl
      have hin : st.inBuf.length = 0 := by
        have hla := List.length_append st.inBuf input
        rw [← hbuf] at hla
        omega
      rw [hres0]
      exact hl0 hin

/-- The per-block output count stays within one sample of `n / ratio`. -/
theorem resampleBlock_count (r : ℚ) (hr : 1 ≤ r) (st : RState) (hst : RInv r st)
    (input : List ℚ) :
    |((resampleBlock r st input).1.length : ℚ) - (input.length : ℚ) / r| ≤ 1 := by
  obtain ⟨hp0, hp1, hlen, hl0⟩ := hst
  have hr0 : (0 : ℚ) < r := lt_of_lt_of_le one_pos hr
  have hout : (resampleBlock r st input).1 =
      (resampleLoop r (st.inBuf ++ input).length (st.inBuf ++ input) st.pos).1 := by
    simp only [resampleBlock]
    split_ifs <;> rfl
  rw [hout]
  set buf := st.inBuf ++ input with hbuf
  set res := resampleLoop r buf.length buf st.pos with hres
  set k := res.1.length with hk
  have hpos : res.2 = st.pos + ((k : ℚ)) * r := resampleLoop_pos r buf buf.length st.pos
  have hstop : (buf.length : ℚ) ≤ res.2 + 1 := by
    have h := resampleLoop_halts r hr buf buf.length st.pos (by push_cast; linarith)
    rw [← hres] at h
    linarith [not_lt.mp h]
  have hlen_eq : (buf.length : ℚ) = (st.inBuf.length : ℚ) + (input.length : ℚ) := by
    rw [hbuf]
    push_cast [List.length_append]
    ring
  have hL : (st.inBuf.length : ℚ) ≤ 1 := by exact_mod_cast hlen
  rw [abs_le]
  constructor
  · have hn : (input.length : ℚ) ≤ ((k : ℚ) + 1) * r := by
      have hexp : ((k : ℚ) + 1) * r = (k : ℚ) * r + r := by ring
      rcases Nat.le_one_iff_eq_zero_or_eq_one.mp hlen with hL0 | hL1
      · have hpr : st.pos ≤ r - 1 := hl0 hL0
        have : (st.inBuf.length : ℚ) = 0 := by rw [hL0]; norm_num
        rw [this] at hlen_eq
        linarith
      · have : (st.inBuf.length : ℚ) = 1 := by rw [hL1]; norm_num
        rw [this] at hlen_eq
        linarith
    have hdiv : (input.length : ℚ) / r ≤ (k : ℚ) + 1 := (div_le_iff hr0).mpr hn
    linarith
  · have hn2 : ((k : ℚ) - 1) * r ≤ (input.length : ℚ) := by
      have hexp : ((k : ℚ) - 1) * r = (k : ℚ) * r - r := by ring
      rcases Nat.eq_zero_or_pos k with hk0 | hkpos
      · rw [hk0]
        simp only [Nat.cast_zero]
        have : (0 : ℚ) ≤ (input.length : ℚ) := Nat.cast_nonneg _
        nlinarith
      · obtain ⟨k', hk'⟩ : ∃ k', k = k' + 1 := ⟨k - 1, by omega⟩
        have hlast := resampleLoop_last r buf buf.length st.pos k'
          (by rw [← hres, ← hk, hk'])
        have hkq : (k : ℚ) = (k' : ℚ) + 1 := by exact_mod_cast hk'
        have hmul : (k : ℚ) * r = (k' : ℚ) * r + r := by rw [hkq]; ring
        linarith
    have hdiv : (k : ℚ) - 1 ≤ (input.length : ℚ) / r := (le_div_iff hr0).mpr hn2
    linarith

/-- The invariant holds after any sequence of blocks. -/
theorem resampleRun_inv (r : ℚ) (hr : 1 ≤ r) (blocks : List (List ℚ)) :
    ∀ st : RState, RInv r st → RInv r (resampleRun r st blocks) := by
  induction blocks with
  | nil =>
    intro st h
    exact h
  | cons b bs ih =>
    intro st h
    exact ih _ (resampleBlock_inv r hr st h b)

/-- C4: feeding any sequence of capture blocks through the resampler, the
maintained fractional cursor never exceeds the retained input history by
more than 1.0 (it is in fact always a proper fraction between blocks), and
the next block of `n` input samples produces `n * 16000 / inputRate`
output samples to within one. -/
theorem resampler_cursor_and_count (inRate : ℚ) (hr : 16000 ≤ inRate) :
    (∀ blocks : List (List ℚ),
      (resampleRun (rRatio inRate) initR blocks).pos ≤
        ((resampleRun (rRatio inRate) initR blocks).inBuf.length : ℚ) + 1) ∧
    (∀ (blocks : List (List ℚ)) (input : List ℚ),
      |((resampleBlock (rRatio inRate) (resampleRun (rRatio inRate) initR blocks) input).1.length : ℚ)
        - (input.length : ℚ) * 16000 / inRate| ≤ 1) := by
  have hr1 : 1 ≤ rRatio inRate := by
    rw [rRatio, le_div_iff (by norm_num : (0 : ℚ) < 16000)]
    linarith
  constructor
  · intro blocks
    obtain ⟨h0, h1, _, _⟩ := resampleRun_inv _ hr1 blocks initR (RInv_init _ hr1)
    have := Nat.cast_nonneg (α := ℚ) (resampleRun (rRatio inRate) initR blocks).inBuf.length
    linarith
  · intro blocks input
    have h := resampleBlock_count _ hr1 _
      (resampleRun_inv _ hr1 blocks initR (RInv_init _ hr1)) input
    have heq : (input.length : ℚ) / rRatio inRate = (input.length : ℚ) * 16000 / inRate := by
      rw [rRatio, div_div_eq_mul_div]
    rw [heq] at h
    exact h

/-- Witness for C4 at the common 48 kHz capture rate. -/
theorem resampler_cursor_and_count_witness :
    (16000 : ℚ) ≤ 48000 ∧
    |(((resampleBlock (rRatio 48000) (resampleRun (rRatio 48000) initR []) [0, 0, 0, 0]).1.length : ℚ))
      - (([0, 0, 0, 0] : List ℚ).length : ℚ) * 16000 / 48000| ≤ 1 :=
  ⟨by norm_num, (resampler_cursor_and_count 48000 (by norm_num)).2 [] [0, 0, 0, 0]⟩

end CaseConnect
